import Mathlib

/-!
Verification of the xfirefly fingerprint scanner (Go) against its
natural-language specification.  The Go sources are shallowly embedded:
pure fragments become Lean functions over `String` / `List Nat` (byte
lists) / `Int` (Go `int`), and the effectful evaluation loop becomes an
explicit fold over an evaluation log.  Third-party primitives that live
outside the repository (crypto/md5, the mahonia GB18030 decoder, the CEL
interpreter) are taken as function parameters of the definitions that
call them, because the repository code treats them as opaque.
-/

namespace XFirefly

/-! ## Small string helpers (Go `strings` package, ASCII fragment)

`strings.ToUpper` / `strings.ToLower` are modelled on the ASCII range,
which is the only range the call sites feed them (HTTP method and
transport-type strings). -/

def asciiUpperChar (c : Char) : Char :=
  if 97 ≤ c.toNat ∧ c.toNat ≤ 122 then Char.ofNat (c.toNat - 32) else c

def asciiLowerChar (c : Char) : Char :=
  if 65 ≤ c.toNat ∧ c.toNat ≤ 90 then Char.ofNat (c.toNat + 32) else c

def asciiToUpper (s : String) : String := String.mk (s.data.map asciiUpperChar)

def asciiToLower (s : String) : String := String.mk (s.data.map asciiLowerChar)

/-- Go `strconv.FormatBool`. -/
def formatBool (b : Bool) : String := if b then "true" else "false"

/-- `common.RemoveTrailingSlash` (part_006): `strings.TrimSuffix(url, "/")`
guarded by a `HasSuffix` check; it removes exactly one trailing slash. -/
def removeTrailingSlash (url : String) : String :=
  if url.data.getLast? = some '/' then String.mk url.data.dropLast else url

/-! ## C7 — rule-thread clamping

`NewRunner` (monitor.go, runner part): the rule worker count is the
option value when positive, else the default 200, then clamped to
[MinRuleWorkers, MaxRuleWorkers] = [200, 5000]. -/

def DefaultRuleWorkers : Int := 200
def MaxRuleWorkers : Int := 5000
def MinRuleWorkers : Int := 200

/-- `NewRunner`: computation of `ruleWorkerCount` from `options.RuleThreads`. -/
def newRunnerRuleWorkerCount (ruleThreads : Int) : Int :=
  let c := if ruleThreads > 0 then ruleThreads else DefaultRuleWorkers
  let c := if c < MinRuleWorkers then MinRuleWorkers else c
  if c > MaxRuleWorkers then MaxRuleWorkers else c

/-- `verifyOptions` (cli/options.go): the rule-thread adjustment it applies to
its by-value copy of the options (negative values become 200, values above
50000 become 50000).  The copy is discarded by the caller, so the value that
reaches `NewRunner` is the raw flag value; the definition is kept to record
what the parsing layer itself does. -/
def verifyOptionsRuleThreads (ruleThreads : Int) : Int :=
  if ruleThreads < 0 then 200
  else if ruleThreads > 50000 then 50000
  else ruleThreads

/-! ## C10 — redirect-policy plumbing

`finger.SendRequest` (finger/runner.go line 43) builds the HTTP options
with `FollowRedirects: !rule.Request.FollowRedirects`; `configureClient`
passes that field to `createRedirectPolicy` (network, part_004). -/

/-- The `FollowRedirects` option `SendRequest` hands to the HTTP client for a
rule whose `follow_redirects` field is `ruleFollowRedirects`. -/
def sendRequestFollowRedirectsOption (ruleFollowRedirects : Bool) : Bool :=
  !ruleFollowRedirects

inductive RedirectDecision where
  | useLastResponse : RedirectDecision
  | limitError : RedirectDecision
  | follow : RedirectDecision
deriving DecidableEq, Repr

def maxRedirects : Nat := 5

/-- `createRedirectPolicy` (part_004): the decision the returned policy takes
for a redirect hop with `viaLen` prior requests.  (The cookie-propagation
body mutates the outgoing request but does not affect the decision.) -/
def createRedirectPolicy (followRedirects : Bool) (viaLen : Nat) : RedirectDecision :=
  if !followRedirects then .useLastResponse
  else if viaLen ≥ maxRedirects then .limitError
  else .follow

/-! ## Request/response records and the probe cache (runner/request.go)

Byte slices (`[]byte`) are embedded as `List Nat`; the Go map
`map[string]*CacheRequest` is embedded as an association list with
distinct keys, and `delete` / assignment as filtering / consing.  The
MD5 helper (`common.MD5Hash`, a thin wrapper over `crypto/md5`) is a
parameter of every definition that derives a cache key. -/

structure ProtoRequest where
  method : String
  body : List Nat
  raw : List Nat
  rawHeader : List Nat
deriving DecidableEq, Repr

structure ProtoResponse where
  status : Int
  body : List Nat
  raw : List Nat
  rawHeader : List Nat
deriving DecidableEq, Repr

/-- `CacheRequest` (request.go): one cache entry. -/
structure CacheRequest where
  request : Option ProtoRequest
  response : Option ProtoResponse
  timestamp : Int
deriving DecidableEq, Repr

abbrev Cache := List (String × CacheRequest)

/-- `maxSize` of the global cache manager: 2048 entries. -/
def cacheMaxSize : Nat := 2048

/-- Cache TTL: 10 minutes, in seconds (timestamps are Unix seconds). -/
def cacheTTLSeconds : Int := 600

/-- `GenerateCacheKey`: MD5 of `target:METHOD:followRedirects`. -/
def generateCacheKey (md5Hash : String → String)
    (target method : String) (followRedirects : Bool) : String :=
  md5Hash (target ++ ":" ++ method ++ ":" ++ formatBool followRedirects)

/-- `RuleRequest` (finger/yaml.go): the HTTP-relevant fields. -/
structure RuleRequest where
  type : String
  method : String
  path : String
  headers : List (String × String)
  body : String
  followRedirects : Bool
deriving DecidableEq, Repr

/-- `Rule` (finger/yaml.go). -/
structure Rule where
  request : RuleRequest
  expression : String
  stopIfMatch : Bool
  stopIfMismatch : Bool
  beforeSleep : Int
deriving DecidableEq, Repr

/-- `RuleMap` (finger/yaml.go): a named rule; `RuleMapSlice` keeps order. -/
structure RuleMap where
  key : String
  value : Rule
deriving DecidableEq, Repr

/-- `ShouldUseCache` (request.go lines 264-314).  Returns the `(bool, caches)`
pair: on a hit the stored request/response, otherwise `none`s (the zero-value
`CacheRequest`).  `now` is the current Unix time in seconds; the expired
branch additionally schedules an asynchronous delete, which only removes the
entry later and does not change the returned value. -/
def shouldUseCache (md5Hash : String → String) (rule : RuleMap) (target : String)
    (cache : Cache) (now : Int) : Bool × Option ProtoRequest × Option ProtoResponse :=
  let reqType := asciiToLower rule.value.request.type
  let method := asciiToUpper rule.value.request.method
  if reqType ≠ "" ∧ reqType ≠ "http" then (false, none, none)
  else
    let isEmptyHeaders := rule.value.request.headers.length = 0
    let isEmptyBody := rule.value.request.body = ""
    let isGetOrPost := method = "GET" ∨ method = "POST"
    if ¬isEmptyHeaders ∨ ¬isEmptyBody ∨ ¬isGetOrPost then (false, none, none)
    else if target = "" then (false, none, none)
    else
      let key := generateCacheKey md5Hash (removeTrailingSlash target) method
        rule.value.request.followRedirects
      match cache.lookup key with
      | some entry =>
        match entry.request, entry.response with
        | some q, some p =>
          if now - entry.timestamp ≤ cacheTTLSeconds then (true, some q, some p)
          else (false, none, none)
        | _, _ => (false, none, none)
      | none => (false, none, none)

/-- The scan of `evictOldestEntries` for the oldest key: Go starts with
`oldestKey = ""`, `oldestTime = time.Now().Unix()` and keeps any entry whose
timestamp is strictly below the running minimum.  (Go iterates the map in an
unspecified order; the fold fixes list order, which affects only which of
several equally-old entries is selected.) -/
def evictScan (now : Int) (cache : Cache) : String × Int :=
  cache.foldl
    (fun acc kv => if kv.2.timestamp < acc.2 then (kv.1, kv.2.timestamp) else acc)
    ("", now)

/-- `evictOldestEntries` (request.go lines 234-256): no-op below capacity,
otherwise delete the scanned oldest key when one was found. -/
def evictOldestEntries (now : Int) (cache : Cache) : Cache :=
  if cache.length < cacheMaxSize then cache
  else
    let oldest := evictScan now cache
    if oldest.1 ≠ "" then cache.filter (fun kv => kv.1 ≠ oldest.1) else cache

/-- `maxCacheSize` in `UpdateTargetCache`: 1 MiB (`1 << 20`). -/
def maxCacheFieldSize : Nat := 1048576

/-- The truncation `UpdateTargetCache` applies to the response before storing
(request.go lines 354-363); `b[:n]` when `len(b) > n` equals `take n b`. -/
def truncateCachedResponse (resp : ProtoResponse) : ProtoResponse :=
  { resp with
      body := resp.body.take maxCacheFieldSize
      raw := resp.raw.take maxCacheFieldSize
      rawHeader := resp.rawHeader.take maxCacheFieldSize }

/-- The truncation `UpdateTargetCache` applies to the request before storing
(request.go lines 364-369): only `Raw` and `Body`; `RawHeader` of the request
is stored as-is. -/
def truncateCachedRequest (req : ProtoRequest) : ProtoRequest :=
  { req with
      raw := req.raw.take maxCacheFieldSize
      body := req.body.take maxCacheFieldSize }

/-- Go map assignment `cache[key] = entry` on the association list. -/
def mapAssign (key : String) (entry : CacheRequest) (cache : Cache) : Cache :=
  (key, entry) :: cache.filter (fun kv => kv.1 ≠ key)

/-- `UpdateTargetCache` (request.go lines 317-386).  The `request` /
`response` slots of the caller's variable map are the two `Option`
arguments (a failed type assertion gives `none`). -/
def updateTargetCache (md5Hash : String → String)
    (req : Option ProtoRequest) (resp : Option ProtoResponse)
    (target : String) (followRedirects : Bool) (now : Int) (cache : Cache) : Cache :=
  match req, resp with
  | some req, some resp =>
    if target = "" then cache
    else
      let method := asciiToUpper req.method
      let isEmptyBody := req.body.length = 0
      let isGetOrPost := method = "GET" ∨ method = "POST"
      if ¬isEmptyBody ∨ ¬isGetOrPost then cache
      else
        let key := generateCacheKey md5Hash (removeTrailingSlash target) method followRedirects
        let entry : CacheRequest :=
          { request := some (truncateCachedRequest req)
            response := some (truncateCachedResponse resp)
            timestamp := now }
        mapAssign key entry (evictOldestEntries now cache)
  | _, _ => cache

/-! ## The per-fingerprint rule loop (runner/fingerprint.go, lines 167-260)

`evaluateFingerprintWithCache` walks the fingerprint's rules in declared
order.  The observable effects of one iteration are: the
`WriteRuleFunctionsROptions(key, b)` binding it records, whether
`finger.SendRequest` was invoked, and whether the rule's CEL expression
was handed to `customLib.Evaluate`.  Those effects are logged explicitly;
the CEL interpreter, the cache verdict and the `{{var}}` substitution
(which depend on the evolving variable bundle and on external I/O) enter
as oracle functions in `RuleEvalCtx`. -/

def isSpaceChar (c : Char) : Bool :=
  c = ' ' ∨ c = '\t' ∨ c = '\n' ∨ c = '\r' ∨ c = '\x0b' ∨ c = '\x0c'

/-- Go `strings.TrimSpace` (the inputs at the call sites are ASCII). -/
def trimSpace (s : String) : String :=
  String.mk (((s.data.dropWhile isSpaceChar).reverse.dropWhile isSpaceChar).reverse)

structure RuleEvalLog where
  bindings : List (String × Bool)
  requests : List String
  evaluatedExprs : List String
deriving DecidableEq, Repr

def RuleEvalLog.empty : RuleEvalLog := ⟨[], [], []⟩

/-- `customLib.WriteRuleFunctionsROptions(key, b)`. -/
def RuleEvalLog.bindRule (log : RuleEvalLog) (key : String) (b : Bool) : RuleEvalLog :=
  { log with bindings := log.bindings ++ [(key, b)] }

/-- A `finger.SendRequest` call issued for the rule. -/
def RuleEvalLog.sendReq (log : RuleEvalLog) (key : String) : RuleEvalLog :=
  { log with requests := log.requests ++ [key] }

/-- A `customLib.Evaluate(rule.Value.Expression, ...)` call for the rule. -/
def RuleEvalLog.evalMark (log : RuleEvalLog) (key : String) : RuleEvalLog :=
  { log with evaluatedExprs := log.evaluatedExprs ++ [key] }

structure RuleEvalCtx where
  /-- `finger.SetVariableMap` over the current variable bundle, applied to the
  trimmed rule path. -/
  substPath : String → String
  /-- verdict of `ShouldUseCache` together with the non-nil check on the
  returned entry (`isCache && cache.Request != nil && cache.Response != nil`). -/
  cacheHit : RuleMap → Bool
  /-- whether `finger.SendRequest` returns without error. -/
  requestOk : RuleMap → Bool
  /-- result of `customLib.Evaluate` on the rule's expression
  (`none` = evaluation error). -/
  evalExpr : RuleMap → Option Bool

/-- Expression evaluation tail of one loop iteration: `Evaluate` is called;
on error the rule binds to `false`, otherwise to the boolean result.
(The `output` block is then fed to `IsFuzzSet`, which only updates the
variable bundle, not the rule bindings.) -/
def evalExprAndBind (ctx : RuleEvalCtx) (rule : RuleMap) (log : RuleEvalLog) : RuleEvalLog :=
  match ctx.evalExpr rule with
  | none => (log.evalMark rule.key).bindRule rule.key false
  | some b => (log.evalMark rule.key).bindRule rule.key b

/-- One iteration of the rule loop (fingerprint.go lines 167-260).  With
active probing disabled, a non-root substituted path, a non-`GET` method or
non-empty headers bind the rule to `false` and `continue`.  Otherwise the
cache is consulted; on a miss `SendRequest` runs, a failure binding the rule
to `false`; finally the rule expression is evaluated and the rule bound to
its result.  No branch consults `stopIfMatch` / `stopIfMismatch`, and every
branch proceeds to the next rule. -/
def evalRuleStep (fingerActive : Bool) (ctx : RuleEvalCtx)
    (log : RuleEvalLog) (rule : RuleMap) : RuleEvalLog :=
  if ¬fingerActive ∧ ctx.substPath (trimSpace rule.value.request.path) ≠ "" ∧
      ctx.substPath (trimSpace rule.value.request.path) ≠ "/" then
    log.bindRule rule.key false
  else if ¬fingerActive ∧ rule.value.request.method ≠ "GET" then log.bindRule rule.key false
  else if ¬fingerActive ∧ rule.value.request.headers.length ≠ 0 then log.bindRule rule.key false
  else if ctx.cacheHit rule then evalExprAndBind ctx rule log
  else if ctx.requestOk rule then evalExprAndBind ctx rule (log.sendReq rule.key)
  else (log.sendReq rule.key).bindRule rule.key false

/-- The whole rule loop: a fold over the fingerprint's rules in declared
order, starting from an empty log. -/
def evaluateFingerprintRules (fingerActive : Bool) (ctx : RuleEvalCtx)
    (rules : List RuleMap) : RuleEvalLog :=
  rules.foldl (evalRuleStep fingerActive ctx) RuleEvalLog.empty

/-- The boolean each rule name ends up bound to, by the same branch
structure as `evalRuleStep`. -/
def ruleOutcome (fingerActive : Bool) (ctx : RuleEvalCtx) (rule : RuleMap) : Bool :=
  if ¬fingerActive ∧ ctx.substPath (trimSpace rule.value.request.path) ≠ "" ∧
      ctx.substPath (trimSpace rule.value.request.path) ≠ "/" then
    false
  else if ¬fingerActive ∧ rule.value.request.method ≠ "GET" then false
  else if ¬fingerActive ∧ rule.value.request.headers.length ≠ 0 then false
  else if ctx.cacheHit rule then (ctx.evalExpr rule).getD false
  else if ctx.requestOk rule then (ctx.evalExpr rule).getD false
  else false

/-! ## Response-body exposure (C1)

`finger.SendRequest` reads the body through
`io.LimitReader(resp.Body, maxDefaultBody)` with `maxDefaultBody =
512*1024`, converts it with `common.Str2UTF8` and stores the result as
`proto.Response.Body`.  `GetBaseInfo` performs the same capped read into
`BodyBytes`; `initializeCache` reuses `BodyBytes` when present but falls
back to an **uncapped** `io.ReadAll` when it is `nil`.  `Str2UTF8`
returns valid-UTF-8 input unchanged and otherwise re-decodes the bytes
as GB18030 through the third-party mahonia decoder, which enters as the
`gb18030` parameter. -/

def maxDefaultBody : Nat := 524288

/-- Go `utf8.Valid` on a byte sequence, written as the acceptRanges state
machine of the Go standard library: `pending` is the number of continuation
bytes still expected and `lo`/`hi` the accepted range of the next one (the
first continuation byte of a sequence has a lead-byte-specific range, the
others accept 0x80-0xBF). -/
def validUTF8Aux : List Nat → Nat → Nat → Nat → Bool
  | [], 0, _, _ => true
  | [], _ + 1, _, _ => false
  | b :: rest, 0, _, _ =>
    if b < 0x80 then validUTF8Aux rest 0 0 0
    else if 0xC2 ≤ b ∧ b ≤ 0xDF then validUTF8Aux rest 1 0x80 0xBF
    else if 0xE0 ≤ b ∧ b ≤ 0xEF then
      validUTF8Aux rest 2 (if b = 0xE0 then 0xA0 else 0x80)
        (if b = 0xED then 0x9F else 0xBF)
    else if 0xF0 ≤ b ∧ b ≤ 0xF4 then
      validUTF8Aux rest 3 (if b = 0xF0 then 0x90 else 0x80)
        (if b = 0xF4 then 0x8F else 0xBF)
    else false
  | b :: rest, k + 1, lo, hi =>
    if lo ≤ b ∧ b ≤ hi then validUTF8Aux rest k 0x80 0xBF else false

def validUTF8 (l : List Nat) : Bool := validUTF8Aux l 0 0 0

/-- `common.Str2UTF8` (part_006): empty stays empty, valid UTF-8 is returned
unchanged, anything else goes through the mahonia GB18030 decoder. -/
def str2UTF8 (gb18030 : List Nat → List Nat) (s : List Nat) : List Nat :=
  if s.length = 0 then []
  else if validUTF8 s then s
  else gb18030 s

/-- The `response.body` bytes a rule probe exposes to the evaluator
(finger/runner.go lines 204-212 and 222-224): capped read, then
`Str2UTF8`, stored by `buildProtoResponse` as `Body: []byte(utf8RespBody)`. -/
def sendRequestExposedBody (gb18030 : List Nat → List Nat) (serverBody : List Nat) : List Nat :=
  str2UTF8 gb18030 (serverBody.take maxDefaultBody)

/-- `GetBaseInfo` (request.go line 115): `BodyBytes` is read through
`io.LimitReader(resp.Body, network.MaxDefaultBody)`. -/
def getBaseInfoBodyBytes (serverBody : List Nat) : List Nat :=
  serverBody.take maxDefaultBody

/-- The `response.body` bytes of the base-info pair built by
`initializeCache` (request.go lines 22-47): `BodyBytes` is preferred when
non-nil; otherwise the response body is re-read by `io.ReadAll` **without
any size cap**. -/
def initializeCacheExposedBody (gb18030 : List Nat → List Nat)
    (bodyBytes : Option (List Nat)) (responseBody : List Nat) : List Nat :=
  let respBody := match bodyBytes with
    | some d => d
    | none => responseBody
  str2UTF8 gb18030 respBody

/-! ## Server banner parsing (finger/server.go)

The three version regexes of `ExtractVersion` and the cleaning regex of
`CleanServerString` are embedded as explicit scanners with Go's
leftmost-first semantics.  For these patterns the greedy `\d+` /
`(\.\d+)*` pieces never need backtracking (a shortened digit run would
have to be followed by `\.` matching a digit, which is impossible), so
the scanners take maximal digit runs.  Banners are single-line header
values, so the `.`-excludes-newline restriction never bites. -/

def isDigitChar (c : Char) : Bool := '0' ≤ c ∧ c ≤ '9'

theorem length_dropWhile_le_len (p : Char → Bool) :
    ∀ l : List Char, (l.dropWhile p).length ≤ l.length := by
  intro l
  induction l with
  | nil => simp [List.dropWhile]
  | cons c rest ih =>
    simp only [List.dropWhile]
    by_cases hp : p c
    · simp only [hp]
      exact Nat.le_succ_of_le ih
    · simp [hp]

/-- Greedy `(\.\d+)*`: the matched characters and the remainder. -/
def takeDotGroups (l : List Char) : List Char × List Char :=
  match l with
  | '.' :: rest =>
    let ds := rest.takeWhile isDigitChar
    if ds = [] then ([], l)
    else
      let mr := takeDotGroups (rest.dropWhile isDigitChar)
      ('.' :: ds ++ mr.1, mr.2)
  | _ => ([], l)
termination_by l.length
decreasing_by
  simp only [List.length_cons]
  exact Nat.lt_succ_of_le (length_dropWhile_le_len _ _)

/-- Anchored capture of `\d+(\.\d+)*`. -/
def matchVersionAt (l : List Char) : Option (List Char) :=
  let ds := l.takeWhile isDigitChar
  if ds = [] then none
  else some (ds ++ (takeDotGroups (l.dropWhile isDigitChar)).1)

/-- `regexp.MustCompile("\\/(\\d+(\\.\\d+)*)").FindStringSubmatch`, capture 1:
the version after the leftmost `/` that is followed by a digit. -/
def findSlashVersion : List Char → Option (List Char)
  | [] => none
  | c :: rest =>
    if c = '/' then
      match matchVersionAt rest with
      | some v => some v
      | none => findSlashVersion rest
    else findSlashVersion rest

/-- Anchored capture of `\d+\.\d+(\.\d+)*` with the remainder after it. -/
def matchDotStarVersionAt (l : List Char) : Option (List Char × List Char) :=
  let ds := l.takeWhile isDigitChar
  if ds = [] then none
  else
    match l.dropWhile isDigitChar with
    | '.' :: r2 =>
      let ds2 := r2.takeWhile isDigitChar
      if ds2 = [] then none
      else
        let mr := takeDotGroups (r2.dropWhile isDigitChar)
        some (ds ++ '.' :: ds2 ++ mr.1, mr.2)
    | _ => none

/-- Earliest `\d+\.\d+(\.\d+)*` match in the list (the lazy `.*?` prefix of
the parenthesis pattern), with the remainder after the capture. -/
def findStarVersionIn : List Char → Option (List Char × List Char)
  | [] => none
  | c :: rest =>
    if isDigitChar c then
      match matchDotStarVersionAt (c :: rest) with
      | some cr => some cr
      | none => findStarVersionIn rest
    else findStarVersionIn rest

/-- `regexp.MustCompile("\\(.*?(\\d+\\.\\d+(\\.\\d+)*).*?\\)")`, capture 1:
the match starts at a `(`, the lazy gaps make the captured number the
earliest one after it, and some `)` must follow the number (`.` also
matches parentheses, so the closing `)` is just any later `)`). -/
def findParenVersion : List Char → Option (List Char)
  | [] => none
  | c :: rest =>
    if c = '(' then
      match findStarVersionIn rest with
      | some cr => if cr.2.contains ')' then some cr.1 else findParenVersion rest
      | none => findParenVersion rest
    else findParenVersion rest

/-- Anchored capture of `\d+\.\d+(\.\d+)?` (at most one extra group). -/
def matchDotVersionAt (l : List Char) : Option (List Char) :=
  let ds := l.takeWhile isDigitChar
  if ds = [] then none
  else
    match l.dropWhile isDigitChar with
    | '.' :: r2 =>
      let ds2 := r2.takeWhile isDigitChar
      if ds2 = [] then none
      else
        match r2.dropWhile isDigitChar with
        | '.' :: r3 =>
          let ds3 := r3.takeWhile isDigitChar
          if ds3 = [] then some (ds ++ '.' :: ds2)
          else some (ds ++ '.' :: ds2 ++ '.' :: ds3)
        | _ => some (ds ++ '.' :: ds2)
    | _ => none

/-- `regexp.MustCompile("(\\d+\\.\\d+(\\.\\d+)?)").FindStringSubmatch`,
capture 1: the leftmost `d+.d+(.d+)?` anywhere in the string. -/
def findAnyVersion : List Char → Option (List Char)
  | [] => none
  | c :: rest =>
    if isDigitChar c then
      match matchDotVersionAt (c :: rest) with
      | some v => some v
      | none => findAnyVersion rest
    else findAnyVersion rest

/-- `ExtractVersion` (server.go lines 67-90): the three recognisers tried in
order — `name/ver`, parenthesised version, then any `d+.d+(.d+)?`. -/
def extractVersion (server : String) : String :=
  match findSlashVersion server.data with
  | some v => String.mk v
  | none =>
    match findParenVersion server.data with
    | some v => String.mk v
    | none =>
      match findAnyVersion server.data with
      | some v => String.mk v
      | none => ""

/-- Skip up to and through the next `)`, if any. -/
def dropThroughRParen : List Char → Option (List Char)
  | [] => none
  | c :: rest => if c = ')' then some rest else dropThroughRParen rest

theorem dropThroughRParen_length : ∀ (l r : List Char),
    dropThroughRParen l = some r → r.length < l.length := by
  intro l
  induction l with
  | nil => intro r h; simp [dropThroughRParen] at h
  | cons c rest ih =>
    intro r h
    simp only [dropThroughRParen] at h
    by_cases hc : c = ')'
    · simp [hc] at h
      simp [← h]
    · simp [hc] at h
      exact Nat.lt_succ_of_lt (ih r h)

/-- `regexp.MustCompile("\\([^)]*\\)").ReplaceAllString(server, "")`: each
`(`-block up to the next `)` is removed, left to right, non-overlapping;
a `(` with no later `)` stays. -/
def removeParenBlocks : List Char → List Char
  | [] => []
  | c :: rest =>
    if c = '(' then
      match h : dropThroughRParen rest with
      | some after => removeParenBlocks after
      | none => c :: removeParenBlocks rest
    else c :: removeParenBlocks rest
termination_by l => l.length
decreasing_by
  · simp only [List.length_cons]
    exact Nat.lt_succ_of_lt (dropThroughRParen_length _ _ h)
  · simp
  · simp

/-- Go `strings.Replace(s, pat, rep, -1)` for non-empty `pat` (all call
sites pass a non-empty pattern; for an empty one the branch below copies
`s` unchanged). -/
def replaceAllL (pat rep : List Char) : List Char → List Char
  | [] => []
  | c :: rest =>
    if h : pat ≠ [] ∧ pat.isPrefixOf (c :: rest) then
      rep ++ replaceAllL pat rep ((c :: rest).drop pat.length)
    else c :: replaceAllL pat rep rest
termination_by l => l.length
decreasing_by
  · simp only [List.length_drop, List.length_cons]
    exact Nat.sub_lt (Nat.succ_pos _) (List.length_pos.mpr h.1)
  · simp

def replaceAll (s pat rep : String) : String :=
  String.mk (replaceAllL pat.data rep.data s.data)

/-- Go `strings.Contains`: `sub` occurs as a contiguous substring of `s`
(an empty `sub` is contained in everything, as in Go). -/
def containsSubL (sub : List Char) : List Char → Bool
  | [] => sub.isPrefixOf []
  | c :: rest => if sub.isPrefixOf (c :: rest) then true else containsSubL sub rest

def containsSubstr (s sub : String) : Bool := containsSubL sub.data s.data

/-- `CleanServerString` (server.go lines 52-64). -/
def cleanServerString (server : String) : String :=
  let noParentheses := String.mk (removeParenBlocks server.data)
  let trimmed := trimSpace noParentheses
  let cleaned := replaceAll trimmed "powered by " ""
  replaceAll cleaned "running on " ""

/-- `ExtractServerInfo` (server.go lines 19-49) applied to the value of the
`Server` header; returns `(cleanedServer, version)`.  The
`slashVersionPattern` built from `regexp.QuoteMeta(version)` matches the
literal `/version`, so its `ReplaceAllString` is a literal replacement. -/
def extractServerInfo (serverValue : String) : String × String :=
  if serverValue = "" then ("", "")
  else
    let version := extractVersion serverValue
    let cleaned0 := cleanServerString serverValue
    let cleaned1 :=
      if version ≠ "" then replaceAll cleaned0 ("/" ++ version) "" else cleaned0
    let cleaned2 :=
      if version ≠ "" ∧ ¬containsSubstr cleaned1 version then
        if containsSubstr serverValue ("/" ++ version) then
          replaceAll (replaceAll serverValue (" (" ++ version ++ ")") "")
            ("(" ++ version ++ ")") ""
        else cleaned1
      else cleaned1
    (trimSpace cleaned2, version)

/-- `types.ServerInfo`. -/
structure ServerInfo where
  originalServer : String
  serverType : String
  version : String
deriving DecidableEq, Repr

/-- `GetServerInfoFromResponse` (server.go lines 118-134) as a function of
the `Server` header value (a `nil` response or absent header gives the
empty `ServerInfo`). -/
def getServerInfoFromServerHeader (serverValue : String) : ServerInfo :=
  if serverValue = "" then ⟨"", "", ""⟩
  else
    let cv := extractServerInfo serverValue
    ⟨serverValue, cv.1, cv.2⟩

/-! ## Fingerprint loading (finger/yaml.go `Read`, runner `LoadFingerprints`)

`Read` only runs the YAML decoder — no field of the decoded fingerprint
is inspected.  The YAML layer is embedded as an `Option Finger` (`none` =
decode error); `LoadFingerprints`'s explicit-file branch checks the file
extension, reads, and appends whatever was decoded. -/

structure Finger where
  id : String
  transport : String
  rules : List RuleMap
  expression : String
deriving DecidableEq, Repr

/-- The transport constants of finger/yaml.go. -/
def allowedTransports : List String := ["http", "tcp", "udp", "ssl", "go"]

/-- Go `strings.HasSuffix`. -/
def hasSuffixStr (s suffix : String) : Bool := suffix.data.isSuffixOf s.data

/-- `common.IsYamlFile` (part_005). -/
def isYamlFile (filename : String) : Bool :=
  hasSuffixStr filename ".yaml" ∨ hasSuffixStr filename ".yml"

/-- `finger.Read` (yaml.go lines 180-194): a successful YAML decode is
returned as-is; only decode failures are errors. -/
def fingerRead (parsed : Option Finger) : Except String Finger :=
  match parsed with
  | some p => Except.ok p
  | none => Except.error "yaml decode error"

/-- The explicit-file branch of `LoadFingerprints` (fingerprint.go lines
45-63) for one file: reject non-YAML extensions and decode errors, accept
any decoded fingerprint. -/
def loadFingerprintFile (filename : String) (parsed : Option Finger) :
    Except String (List Finger) :=
  if ¬ isYamlFile filename then Except.error "not a yaml fingerprint file"
  else
    match fingerRead parsed with
    | Except.error e => Except.error e
    | Except.ok poc => Except.ok [poc]

/-- Modelled from the spec (for comparison with the code): the validation
§4.1 prescribes — "Validation rejects: missing `id`, empty `rules`,
expressions referencing undefined rule names, transport outside the allowed
set."  The undefined-rule-name clause needs a CEL parser and is supplied as
the boolean `undefinedName`; an empty transport means the default `http`. -/
def specFingerRejected (f : Finger) (undefinedName : Bool) : Bool :=
  f.id = "" ∨ f.rules.length = 0 ∨ undefinedName ∨
    (f.transport ≠ "" ∧ ¬ allowedTransports.contains f.transport)

/-! # Theorems -/

/-- C7: for every integer value of the rule-threads option, the rule worker
pool size computed by `NewRunner` lies in [200, 5000]; values below 200
(including non-positive values) are raised to 200 and values above 5000 are
lowered to 5000. -/
theorem C7_rule_threads_clamped (x : Int) :
    (200 ≤ newRunnerRuleWorkerCount x ∧ newRunnerRuleWorkerCount x ≤ 5000) ∧
    (x < 200 → newRunnerRuleWorkerCount x = 200) ∧
    (5000 < x → newRunnerRuleWorkerCount x = 5000) := by
  simp only [newRunnerRuleWorkerCount, DefaultRuleWorkers, MinRuleWorkers, MaxRuleWorkers]
  split_ifs <;> omega

/-- C7 witness: the clamping theorem at the concrete inputs 7 and 6000. -/
theorem C7_rule_threads_clamped_witness :
    (200 ≤ newRunnerRuleWorkerCount 7 ∧ newRunnerRuleWorkerCount 7 ≤ 5000) ∧
    newRunnerRuleWorkerCount 7 = 200 ∧ newRunnerRuleWorkerCount 6000 = 5000 :=
  ⟨(C7_rule_threads_clamped 7).1, (C7_rule_threads_clamped 7).2.1 (by decide),
   (C7_rule_threads_clamped 6000).2.2 (by decide)⟩

/-- C10: the redirect-following option `SendRequest` passes to the HTTP
client is the negation of the rule's follow_redirects field, and (below the
hop limit) the resulting redirect policy follows a redirect iff the rule's
follow_redirects is false. -/
theorem C10_redirect_option_negated (ruleFollow : Bool) (viaLen : Nat) :
    sendRequestFollowRedirectsOption ruleFollow = !ruleFollow ∧
    (viaLen < maxRedirects →
      (createRedirectPolicy (sendRequestFollowRedirectsOption ruleFollow) viaLen =
          RedirectDecision.follow ↔ ruleFollow = false)) := by
  refine ⟨rfl, fun h => ?_⟩
  simp only [maxRedirects] at h
  cases ruleFollow <;>
    simp_all [sendRequestFollowRedirectsOption, createRedirectPolicy, maxRedirects]

/-- C10 witness: a rule with follow_redirects = false gets a client option of
true, and the policy follows the first hop. -/
theorem C10_redirect_option_negated_witness :
    sendRequestFollowRedirectsOption false = true ∧
    (createRedirectPolicy (sendRequestFollowRedirectsOption false) 0 =
        RedirectDecision.follow ↔ false = false) :=
  ⟨(C10_redirect_option_negated false 0).1,
   (C10_redirect_option_negated false 0).2 (by decide)⟩

/-! ### C2 / C6 rule-loop theorems -/

theorem evalRuleStep_bindings (a : Bool) (ctx : RuleEvalCtx)
    (log : RuleEvalLog) (r : RuleMap) :
    (evalRuleStep a ctx log r).bindings =
      log.bindings ++ [(r.key, ruleOutcome a ctx r)] := by
  simp only [evalRuleStep, ruleOutcome, evalExprAndBind]
  split_ifs <;>
    first
      | rfl
      | (cases h : ctx.evalExpr r <;>
         simp [h, RuleEvalLog.bindRule, RuleEvalLog.evalMark, RuleEvalLog.sendReq])

theorem foldl_evalRuleStep_bindings (a : Bool) (ctx : RuleEvalCtx) :
    ∀ (rules : List RuleMap) (log : RuleEvalLog),
      (rules.foldl (evalRuleStep a ctx) log).bindings =
        log.bindings ++ rules.map (fun r => (r.key, ruleOutcome a ctx r)) := by
  intro rules
  induction rules with
  | nil => intro log; simp
  | cons r rest ih =>
    intro log
    simp only [List.foldl_cons, List.map_cons]
    rw [ih, evalRuleStep_bindings]
    simp

/-- C2 (amended): after each rule's expression is evaluated its rule name is
bound to the boolean result, in declared order; but `stop_if_match` /
`stop_if_mismatch` are parsed and never consulted — the loop always
processes every rule of the fingerprint, producing exactly one binding per
rule regardless of the flags. -/
theorem C2_bindings_cover_all_rules (a : Bool) (ctx : RuleEvalCtx)
    (rules : List RuleMap) :
    (evaluateFingerprintRules a ctx rules).bindings =
      rules.map (fun r => (r.key, ruleOutcome a ctx r)) := by
  unfold evaluateFingerprintRules
  simpa [RuleEvalLog.empty] using
    foldl_evalRuleStep_bindings a ctx rules RuleEvalLog.empty

/-- Oracle where every cache lookup hits and every expression evaluates to
true. -/
def ctxAllTrue : RuleEvalCtx :=
  { substPath := fun s => s
    cacheHit := fun _ => true
    requestOk := fun _ => true
    evalExpr := fun _ => some true }

def cRootReq : RuleRequest :=
  { type := "", method := "GET", path := "/", headers := [], body := ""
    followRedirects := false }

def cRuleStop : RuleMap :=
  ⟨"r0", { request := cRootReq, expression := "true", stopIfMatch := true
           stopIfMismatch := false, beforeSleep := 0 }⟩

def cRuleNext : RuleMap :=
  ⟨"r1", { request := cRootReq, expression := "true", stopIfMatch := false
           stopIfMismatch := false, beforeSleep := 0 }⟩

/-- C2 counterexample: rule r0 has `stop_if_match` set and its expression
evaluates to true, yet the following rule r1 is still evaluated (its
expression runs and it is bound) — the loop does not short-circuit. -/
theorem C2_no_short_circuit_counterexample :
    cRuleStop.value.stopIfMatch = true ∧
    (evaluateFingerprintRules true ctxAllTrue [cRuleStop, cRuleNext]).bindings =
      [("r0", true), ("r1", true)] ∧
    (evaluateFingerprintRules true ctxAllTrue [cRuleStop, cRuleNext]).evaluatedExprs =
      ["r0", "r1"] := by
  refine ⟨rfl, ?_, ?_⟩ <;> decide

/-- C6: with active probing disabled, a rule whose (substituted) request path
is non-empty and not "/", or whose method is not GET, or whose headers are
non-empty, is bound to `false`, and the step issues no outbound request and
evaluates no expression. -/
theorem C6_inactive_gating (ctx : RuleEvalCtx) (log : RuleEvalLog) (r : RuleMap)
    (h : (ctx.substPath (trimSpace r.value.request.path) ≠ "" ∧
          ctx.substPath (trimSpace r.value.request.path) ≠ "/") ∨
         r.value.request.method ≠ "GET" ∨
         r.value.request.headers.length ≠ 0) :
    evalRuleStep false ctx log r = log.bindRule r.key false ∧
    (evalRuleStep false ctx log r).requests = log.requests ∧
    (evalRuleStep false ctx log r).evaluatedExprs = log.evaluatedExprs := by
  have heq : evalRuleStep false ctx log r = log.bindRule r.key false := by
    unfold evalRuleStep
    split_ifs with hc1 hc2 hc3 hc4 hc5 <;>
      first
        | rfl
        | (exfalso
           rcases h with ⟨hp1, hp2⟩ | hm | hh <;> simp_all)
  exact ⟨heq, by rw [heq]; rfl, by rw [heq]; rfl⟩

def cRuleAdmin : RuleMap :=
  ⟨"radmin", { request := { type := "", method := "GET", path := "/admin"
                            headers := [], body := "", followRedirects := false }
               expression := "true", stopIfMatch := false, stopIfMismatch := false
               beforeSleep := 0 }⟩

/-- C6 witness: with active probing off, a rule whose path is `/admin` is
bound to false with no request issued. -/
theorem C6_inactive_gating_witness :
    evalRuleStep false ctxAllTrue RuleEvalLog.empty cRuleAdmin =
      RuleEvalLog.empty.bindRule "radmin" false ∧
    (evalRuleStep false ctxAllTrue RuleEvalLog.empty cRuleAdmin).requests = [] ∧
    (evalRuleStep false ctxAllTrue RuleEvalLog.empty cRuleAdmin).evaluatedExprs = [] :=
  C6_inactive_gating ctxAllTrue RuleEvalLog.empty cRuleAdmin (Or.inl (by decide))


/-! ### C3 — cache reads respect the TTL -/

/-- C3: `ShouldUseCache` never returns an entry whose age exceeds the TTL:
(a) any hit returns the stored pair of an entry aged at most 600 s;
(b) a present, complete entry within the TTL is returned as a hit for an
eligible rule; (c) a present entry older than the TTL reads as a miss;
(d) on a hit the rule step issues no outbound probe. -/
theorem C3_cache_read_ttl (md5Hash : String → String) (rule : RuleMap)
    (target : String) (cache : Cache) (now : Int) :
    (∀ q p, shouldUseCache md5Hash rule target cache now = (true, some q, some p) →
      ∃ e, cache.lookup (generateCacheKey md5Hash (removeTrailingSlash target)
            (asciiToUpper rule.value.request.method)
            rule.value.request.followRedirects) = some e ∧
        e.request = some q ∧ e.response = some p ∧
        now - e.timestamp ≤ cacheTTLSeconds) ∧
    (∀ e q p,
      (asciiToLower rule.value.request.type = "" ∨
        asciiToLower rule.value.request.type = "http") →
      rule.value.request.headers.length = 0 →
      rule.value.request.body = "" →
      (asciiToUpper rule.value.request.method = "GET" ∨
        asciiToUpper rule.value.request.method = "POST") →
      target ≠ "" →
      cache.lookup (generateCacheKey md5Hash (removeTrailingSlash target)
          (asciiToUpper rule.value.request.method)
          rule.value.request.followRedirects) = some e →
      e.request = some q → e.response = some p →
      now - e.timestamp ≤ cacheTTLSeconds →
      shouldUseCache md5Hash rule target cache now = (true, some q, some p)) ∧
    (∀ e, cache.lookup (generateCacheKey md5Hash (removeTrailingSlash target)
          (asciiToUpper rule.value.request.method)
          rule.value.request.followRedirects) = some e →
      cacheTTLSeconds < now - e.timestamp →
      (shouldUseCache md5Hash rule target cache now).1 = false) ∧
    (∀ (ctx : RuleEvalCtx) (log : RuleEvalLog),
      ctx.cacheHit rule = true →
      (evalRuleStep true ctx log rule).requests = log.requests) := by
  refine ⟨?_, ?_, ?_, ?_⟩
  · intro q p hqp
    simp only [shouldUseCache] at hqp
    split_ifs at hqp with h1 h2 h3
    · injection hqp with hb hr
      exact Bool.noConfusion hb
    · injection hqp with hb hr
      exact Bool.noConfusion hb
    · injection hqp with hb hr
      exact Bool.noConfusion hb
    · split at hqp
      all_goals try (injection hqp with hb hr; exact Bool.noConfusion hb)
      rename_i entry heq
      split at hqp
      all_goals try (injection hqp with hb hr; exact Bool.noConfusion hb)
      rename_i q2 p2 hreq hresp
      split_ifs at hqp with httl
      all_goals try (injection hqp with hb hr; exact Bool.noConfusion hb)
      simp only [Prod.mk.injEq, Option.some.injEq, true_and] at hqp
      obtain ⟨hq, hp⟩ := hqp
      exact ⟨entry, heq, by rw [hreq, hq], by rw [hresp, hp], httl⟩
  · intro e q p hType hHead hBody hMeth hTarget hlook hreq hresp httl
    simp only [shouldUseCache]
    rw [if_neg (fun hc => hType.elim (fun h => hc.1 h) (fun h => hc.2 h))]
    rw [if_neg (by push_neg; exact ⟨hHead, hBody, hMeth⟩)]
    rw [if_neg hTarget]
    simp only [hlook, hreq, hresp]
    rw [if_pos httl]
  · intro e hlook httl
    simp only [shouldUseCache]
    split_ifs with h1 h2 h3
    · rfl
    · rfl
    · rfl
    · simp only [hlook]
      rcases hq : e.request with - | q2 <;> rcases hp : e.response with - | p2 <;>
          simp only [hq, hp]
      all_goals first
        | rfl
        | rw [if_neg (not_le.mpr httl)]
  · intro ctx log hhit
    unfold evalRuleStep
    rw [if_neg (by simp), if_neg (by simp), if_neg (by simp), if_pos hhit]
    unfold evalExprAndBind
    cases ctx.evalExpr rule <;> rfl

def wReq : ProtoRequest := ⟨"GET", [], [], []⟩
def wResp : ProtoResponse := ⟨200, [], [], []⟩
def wEntry : CacheRequest := ⟨some wReq, some wResp, 100⟩
def wCache : Cache := [("http://t:GET:false", wEntry)]

/-- C3 witness: with the hash parameter instantiated to the identity, a
fresh entry (age 300 s) is returned as a hit and an expired one (age
1900 s) as a miss, at concrete inputs. -/
theorem C3_cache_read_ttl_witness :
    shouldUseCache (fun s => s) cRuleStop "http://t" wCache 400 =
      (true, some wReq, some wResp) ∧
    (shouldUseCache (fun s => s) cRuleStop "http://t" wCache 2000).1 = false :=
  ⟨(C3_cache_read_ttl (fun s => s) cRuleStop "http://t" wCache 400).2.1
      wEntry wReq wResp (by decide) (by decide) (by decide) (by decide)
      (by decide) (by decide) (by decide) (by decide) (by decide),
   (C3_cache_read_ttl (fun s => s) cRuleStop "http://t" wCache 2000).2.2.1
      wEntry (by decide) (by decide)⟩


/-! ### C4 — cache capacity bound -/

theorem evictScan_const_of_not_lt (now : Int) :
    ∀ cache : Cache, (∀ kv ∈ cache, ¬ kv.2.timestamp < now) →
      evictScan now cache = ("", now) := by
  intro cache
  induction cache with
  | nil => intro _; rfl
  | cons kv rest ih =>
    intro h
    simp only [evictScan, List.foldl_cons]
    rw [if_neg (h kv (List.mem_cons_self kv rest))]
    simpa [evictScan] using ih (fun x hx => h x (List.mem_cons_of_mem kv hx))

/-- When the cache is at capacity but no entry's timestamp is strictly below
`now` (they were all written in the current second), `evictOldestEntries`
finds no oldest key and deletes nothing. -/
theorem evictOldestEntries_noop_same_second (now : Int) (cache : Cache)
    (hfull : cacheMaxSize ≤ cache.length)
    (hts : ∀ kv ∈ cache, kv.2.timestamp = now) :
    evictOldestEntries now cache = cache := by
  unfold evictOldestEntries
  rw [if_neg (by omega)]
  rw [evictScan_const_of_not_lt now cache (fun kv h => by rw [hts kv h]; omega)]
  simp

theorem replicate_ne_cons (c d : Char) (hcd : d ≠ c) (l : List Char) (i : Nat) :
    List.replicate i c ≠ d :: l := by
  cases i with
  | zero => simp
  | succ n =>
    simp only [List.replicate]
    intro h
    injection h with h1 _
    exact hcd h1.symm

/-- A full cache: 2048 distinct keys, all entries stamped at second 5. -/
def sameSecondCache : Cache :=
  (List.range cacheMaxSize).map
    (fun i => (String.mk (List.replicate i 'a'),
      { request := some wReq, response := some wResp, timestamp := 5 }))

/-- C4: the code evaluated at the failing input.  A cache holding
`max_size` = 2048 entries, all written in the current second, accepts one
more write with no eviction (the eviction scan starts its minimum at `now`
and looks for strictly older entries): 2049 entries after the write,
contradicting the `len(cache) ≤ max_size` invariant the code's own
comments state. -/
theorem C4_capacity_exceeded_at_full_same_second_cache :
    (updateTargetCache (fun _ => "k") (some wReq) (some wResp) "http://t" false 5
        sameSecondCache).length = 2049 ∧
    cacheMaxSize = 2048 := by
  constructor
  · have hlen : sameSecondCache.length = 2048 := by
      simp [sameSecondCache, cacheMaxSize]
    have hts : ∀ kv ∈ sameSecondCache, kv.2.timestamp = 5 := by
      intro kv hkv
      simp only [sameSecondCache, List.mem_map] at hkv
      obtain ⟨i, -, rfl⟩ := hkv
      rfl
    have hevict : evictOldestEntries 5 sameSecondCache = sameSecondCache :=
      evictOldestEntries_noop_same_second 5 sameSecondCache
        (by rw [hlen]; exact Nat.le.refl) hts
    have hfresh : sameSecondCache.filter (fun kv => kv.1 ≠ "k") = sameSecondCache := by
      rw [List.filter_eq_self]
      intro kv hkv
      simp only [sameSecondCache, List.mem_map] at hkv
      obtain ⟨i, -, rfl⟩ := hkv
      simp only [ne_eq, decide_eq_true_eq]
      intro h
      exact replicate_ne_cons 'a' 'k' (by decide) [] i (congrArg String.data h)
    simp only [updateTargetCache, mapAssign, generateCacheKey]
    rw [if_neg (by decide), if_neg (by decide)]
    rw [hevict, hfresh]
    simp [hlen]
  · rfl

/-! ### C5 — truncation of stored cache entries -/

def bigHeaderReq : ProtoRequest := ⟨"GET", [], [], List.replicate 1048577 0⟩

/-- C5 counterexample: an entry written with a request whose `raw_header` is
1 MiB + 1 bytes long stores that field untruncated — 1048577 bytes, above
the 1 MiB bound the claim asserts for all six large fields. -/
theorem C5_request_raw_header_not_truncated :
    ∃ e, (updateTargetCache (fun _ => "k") (some bigHeaderReq) (some wResp)
        "http://t" false 5 []).lookup "k" = some e ∧
      ∃ q, e.request = some q ∧ q.rawHeader.length = 1048577 ∧
        ¬(q.rawHeader.length ≤ maxCacheFieldSize) := by
  refine ⟨⟨some (truncateCachedRequest bigHeaderReq),
          some (truncateCachedResponse wResp), 5⟩, ?_,
        truncateCachedRequest bigHeaderReq, rfl, ?_, ?_⟩
  · rfl
  · exact List.length_replicate _ _
  · have hl : (truncateCachedRequest bigHeaderReq).rawHeader.length = 1048577 :=
      List.length_replicate _ _
    rw [hl]
    decide

/-- C5 (amended): every entry stored by a cache write truncates the response
`body`, `raw`, `raw_header` and the request `raw`, `body` to at most 1 MiB
before insertion, and the stored entry is exactly the truncation of the
written pair — but the request's `raw_header` is stored unmodified, with no
length bound. -/
theorem C5_stored_entry_truncation (md5Hash : String → String)
    (req : ProtoRequest) (resp : ProtoResponse) (target : String)
    (fr : Bool) (now : Int) (cache : Cache)
    (htarget : target ≠ "")
    (hbody : req.body.length = 0)
    (hmeth : asciiToUpper req.method = "GET" ∨ asciiToUpper req.method = "POST") :
    ∃ e, (updateTargetCache md5Hash (some req) (some resp) target fr now
        cache).lookup (generateCacheKey md5Hash (removeTrailingSlash target)
          (asciiToUpper req.method) fr) = some e ∧
      e.request = some (truncateCachedRequest req) ∧
      e.response = some (truncateCachedResponse resp) ∧
      e.timestamp = now ∧
      (truncateCachedRequest req).body.length ≤ maxCacheFieldSize ∧
      (truncateCachedRequest req).raw.length ≤ maxCacheFieldSize ∧
      (truncateCachedResponse resp).body.length ≤ maxCacheFieldSize ∧
      (truncateCachedResponse resp).raw.length ≤ maxCacheFieldSize ∧
      (truncateCachedResponse resp).rawHeader.length ≤ maxCacheFieldSize ∧
      (truncateCachedRequest req).rawHeader = req.rawHeader := by
  refine ⟨⟨some (truncateCachedRequest req), some (truncateCachedResponse resp), now⟩,
    ?_, rfl, rfl, rfl, ?_, ?_, ?_, ?_, ?_, rfl⟩
  · simp only [updateTargetCache, mapAssign]
    rw [if_neg htarget]
    rw [if_neg (by push_neg; exact ⟨hbody, hmeth⟩)]
    simp [List.lookup]
  · simp [truncateCachedRequest]
  · simp [truncateCachedRequest]
  · simp [truncateCachedResponse]
  · simp [truncateCachedResponse]
  · simp [truncateCachedResponse]

/-- C5 witness: the truncation theorem at concrete inputs. -/
theorem C5_stored_entry_truncation_witness :
    ∃ e, (updateTargetCache (fun _ => "k") (some wReq) (some wResp) "http://t"
        false 5 []).lookup (generateCacheKey (fun _ => "k")
          (removeTrailingSlash "http://t") (asciiToUpper wReq.method) false) = some e ∧
      e.request = some (truncateCachedRequest wReq) ∧
      e.response = some (truncateCachedResponse wResp) ∧
      e.timestamp = 5 ∧
      (truncateCachedRequest wReq).body.length ≤ maxCacheFieldSize ∧
      (truncateCachedRequest wReq).raw.length ≤ maxCacheFieldSize ∧
      (truncateCachedResponse wResp).body.length ≤ maxCacheFieldSize ∧
      (truncateCachedResponse wResp).raw.length ≤ maxCacheFieldSize ∧
      (truncateCachedResponse wResp).rawHeader.length ≤ maxCacheFieldSize ∧
      (truncateCachedRequest wReq).rawHeader = wReq.rawHeader :=
  C5_stored_entry_truncation (fun _ => "k") wReq wResp "http://t" false 5 []
    (by decide) (by decide) (by decide)


/-! ### C9 — loader accepts un-validated fingerprints -/

def badFinger : Finger := ⟨"", "quic", [], "r0"⟩

/-- C9 counterexample: a YAML file that decodes to a fingerprint with a
missing id, an empty rules section and a transport outside
{http, tcp, udp, ssl, go} is accepted by the loader, while the claim says
such a fingerprint is rejected. -/
theorem C9_invalid_finger_accepted :
    loadFingerprintFile "bad.yaml" (some badFinger) = Except.ok [badFinger] ∧
    specFingerRejected badFinger false = true := by
  exact ⟨rfl, rfl⟩

/-- C9 (amended): loading a fingerprint file checks only the filename
extension and YAML well-formedness; every successfully decoded fingerprint
is accepted unchanged — no check of id, rules, expression rule names or
transport is performed. -/
theorem C9_load_accepts_any_decoded_finger (filename : String) (f : Finger)
    (hy : isYamlFile filename = true) :
    loadFingerprintFile filename (some f) = Except.ok [f] := by
  unfold loadFingerprintFile fingerRead
  rw [if_neg (by simp [hy])]

def okFinger : Finger := ⟨"nginx", "http", [cRuleStop], "r0"⟩

/-- C9 witness: the acceptance theorem at a concrete file/fingerprint. -/
theorem C9_load_accepts_any_decoded_finger_witness :
    loadFingerprintFile "a.yaml" (some okFinger) = Except.ok [okFinger] :=
  C9_load_accepts_any_decoded_finger "a.yaml" okFinger (by decide)

/-! ### C8 — Server banner parsing -/

/-- C8 counterexample: the Server banner "nginx/1.18.0" yields server-info
with product "nginx/1.18.0" — lines 38-43 of server.go deliberately restore
the original name/version banner after cleaning — not the product "nginx"
the claim expects. -/
theorem C8_nginx_product_keeps_version :
    getServerInfoFromServerHeader "nginx/1.18.0" =
      ⟨"nginx/1.18.0", "nginx/1.18.0", "1.18.0"⟩ ∧
    (getServerInfoFromServerHeader "nginx/1.18.0").serverType ≠ "nginx" := by
  have h : getServerInfoFromServerHeader "nginx/1.18.0" =
      ⟨"nginx/1.18.0", "nginx/1.18.0", "1.18.0"⟩ := by
    simp +decide [getServerInfoFromServerHeader, extractServerInfo, extractVersion,
      findSlashVersion, matchVersionAt, takeDotGroups, cleanServerString,
      removeParenBlocks, replaceAll, replaceAllL, containsSubstr, containsSubL,
      trimSpace, isSpaceChar, isDigitChar, dropThroughRParen]
  refine ⟨h, ?_⟩
  rw [h]
  decide

/-- C8 (amended): the banner "nginx/1.18.0" parses to original
"nginx/1.18.0", product "nginx/1.18.0" (the original name/version format is
kept), version "1.18.0"; and the version recognisers are tried in the order
name/ver, parenthesised version, then any d+.d+(.d+)? pattern. -/
theorem C8_server_parsing_order (s : String) (v : List Char) :
    getServerInfoFromServerHeader "nginx/1.18.0" =
      ⟨"nginx/1.18.0", "nginx/1.18.0", "1.18.0"⟩ ∧
    (findSlashVersion s.data = some v → extractVersion s = String.mk v) ∧
    (findSlashVersion s.data = none → findParenVersion s.data = some v →
      extractVersion s = String.mk v) ∧
    (findSlashVersion s.data = none → findParenVersion s.data = none →
      findAnyVersion s.data = some v → extractVersion s = String.mk v) := by
  refine ⟨?_, ?_, ?_, ?_⟩
  · simp +decide [getServerInfoFromServerHeader, extractServerInfo, extractVersion,
      findSlashVersion, matchVersionAt, takeDotGroups, cleanServerString,
      removeParenBlocks, replaceAll, replaceAllL, containsSubstr, containsSubL,
      trimSpace, isSpaceChar, isDigitChar, dropThroughRParen]
  · intro h1
    unfold extractVersion
    rw [h1]
  · intro h1 h2
    unfold extractVersion
    rw [h1, h2]
  · intro h1 h2 h3
    unfold extractVersion
    rw [h1, h2, h3]

/-- C8 witness: the parsing theorem at concrete banners exercising each of
the three recognisers. -/
theorem C8_server_parsing_order_witness :
    getServerInfoFromServerHeader "nginx/1.18.0" =
      ⟨"nginx/1.18.0", "nginx/1.18.0", "1.18.0"⟩ ∧
    extractVersion "nginx/1.18.0" = String.mk "1.18.0".data ∧
    extractVersion "Apache (2.4.1)" = String.mk "2.4.1".data ∧
    extractVersion "Server 1.2" = String.mk "1.2".data :=
  ⟨(C8_server_parsing_order "x" []).1,
   (C8_server_parsing_order "nginx/1.18.0" "1.18.0".data).2.1
     (by simp +decide [findSlashVersion, matchVersionAt, takeDotGroups, isDigitChar]),
   (C8_server_parsing_order "Apache (2.4.1)" "2.4.1".data).2.2.1
     (by simp +decide [findSlashVersion, matchVersionAt, takeDotGroups, isDigitChar])
     (by simp +decide [findParenVersion, findStarVersionIn, matchDotStarVersionAt,
       takeDotGroups, isDigitChar]),
   (C8_server_parsing_order "Server 1.2" "1.2".data).2.2.2
     (by simp +decide [findSlashVersion, matchVersionAt, takeDotGroups, isDigitChar])
     (by simp +decide [findParenVersion, findStarVersionIn, matchDotStarVersionAt,
       takeDotGroups, isDigitChar])
     (by simp +decide [findAnyVersion, matchDotVersionAt, isDigitChar])⟩

/-! ### C1 — response body size bound -/

theorem validUTF8_cons_ascii (l : List Nat) : validUTF8 (65 :: l) = validUTF8 l := by
  simp only [validUTF8, validUTF8Aux]
  norm_num

theorem validUTF8_replicate_A : ∀ n : Nat, validUTF8 (List.replicate n 65) = true := by
  intro n
  induction n with
  | zero => rfl
  | succ k ih =>
    rw [List.replicate_succ, validUTF8_cons_ascii]
    exact ih

def tenMiBBody : List Nat := List.replicate 10485760 65

/-- C1 counterexample: when `BodyBytes` is nil (e.g. the technology-catalog
initialisation failed in `GetBaseInfo`), `initializeCache` re-reads the
response body with no size cap, and a 10 MiB ASCII body is exposed to the
evaluator in full: 10485760 bytes, far above the claimed 524288-byte bound. -/
theorem C1_uncapped_base_info_body :
    (initializeCacheExposedBody (fun l => l) none tenMiBBody).length = 10485760 ∧
    ¬((initializeCacheExposedBody (fun l => l) none tenMiBBody).length ≤ 524288) := by
  have hv : validUTF8 tenMiBBody = true := validUTF8_replicate_A 10485760
  have hlen : tenMiBBody.length = 10485760 := List.length_replicate _ _
  have h : initializeCacheExposedBody (fun l => l) none tenMiBBody = tenMiBBody := by
    simp only [initializeCacheExposedBody, str2UTF8]
    rw [if_neg (by rw [hlen]; norm_num), if_pos hv]
  rw [h, hlen]
  norm_num

/-- C1 (amended): the body a rule probe (`SendRequest`) exposes is read
through a 512 KiB LimitReader, and the base-info pair is capped when it
reuses `GetBaseInfo`'s LimitReader-read `BodyBytes`: in both cases, provided
the capped bytes are valid UTF-8 (otherwise a GB18030 re-decode of
unbounded ratio runs), the exposed body is at most 524288 bytes, and
exactly 524288 for a server body of at least 512 KiB (e.g. 10 MiB); only
the nil-`BodyBytes` fallback of `initializeCache` reads without a cap. -/
theorem C1_body_caps (gb : List Nat → List Nat) (serverBody raw other : List Nat) :
    (validUTF8 (serverBody.take maxDefaultBody) = true →
      (sendRequestExposedBody gb serverBody).length ≤ 524288) ∧
    (validUTF8 (serverBody.take maxDefaultBody) = true →
      524288 ≤ serverBody.length →
      (sendRequestExposedBody gb serverBody).length = 524288) ∧
    (validUTF8 (getBaseInfoBodyBytes raw) = true →
      (initializeCacheExposedBody gb (some (getBaseInfoBodyBytes raw))
        other).length ≤ 524288) := by
  refine ⟨?_, ?_, ?_⟩
  · intro hv
    unfold sendRequestExposedBody str2UTF8
    split_ifs with h0
    · simp
    · simp only [List.length_take]
      exact Nat.min_le_left _ _
  · intro hv hlen
    unfold sendRequestExposedBody str2UTF8
    split_ifs with h0
    · exfalso
      rw [List.length_take] at h0
      simp only [maxDefaultBody] at h0
      omega
    · rw [List.length_take]
      simp only [maxDefaultBody]
      omega
  · intro hv
    unfold initializeCacheExposedBody str2UTF8
    simp only []
    split_ifs with h0
    · simp
    · unfold getBaseInfoBodyBytes
      simp only [List.length_take]
      exact Nat.min_le_left _ _

def halfMiBBody : List Nat := List.replicate 524288 65

theorem halfMiBBody_take_cap : halfMiBBody.take maxDefaultBody =
    List.replicate 524288 65 := by
  unfold halfMiBBody maxDefaultBody
  rw [List.take_replicate, Nat.min_self]

theorem halfMiBBody_base_bytes : getBaseInfoBodyBytes halfMiBBody =
    List.replicate 524288 65 := by
  unfold getBaseInfoBodyBytes
  exact halfMiBBody_take_cap

/-- C1 witness: the cap theorem at a concrete 512 KiB ASCII body. -/
theorem C1_body_caps_witness :
    (sendRequestExposedBody (fun l => l) halfMiBBody).length ≤ 524288 ∧
    (sendRequestExposedBody (fun l => l) halfMiBBody).length = 524288 ∧
    (initializeCacheExposedBody (fun l => l)
      (some (getBaseInfoBodyBytes halfMiBBody)) []).length ≤ 524288 :=
  ⟨(C1_body_caps (fun l => l) halfMiBBody halfMiBBody []).1
     (by rw [halfMiBBody_take_cap]; exact validUTF8_replicate_A _),
   (C1_body_caps (fun l => l) halfMiBBody halfMiBBody []).2.1
     (by rw [halfMiBBody_take_cap]; exact validUTF8_replicate_A _)
     (le_of_eq (List.length_replicate 524288 65).symm),
   (C1_body_caps (fun l => l) halfMiBBody halfMiBBody []).2.2
     (by rw [halfMiBBody_base_bytes]; exact validUTF8_replicate_A _)⟩

end XFirefly
